import Mathlib

set_option maxRecDepth 100000

/-
Verification development for the gogetbfmetadata repository.

The repository extracts microscopy metadata by invoking the Bio-Formats
command line tool and parsing its free-text or OME-XML output.  This file
gives a shallow embedding of the pure parts of the Go code:

* the text-report parser of the prototype `readImageMetadata` functions
  (the regex extraction over the raw tool output and the per-series loop),
* the run-length series grouper `printSeriesGroups`,
* the `<?xml` marker extraction of `bfmetadata.GetOmexmlMetadata`,
* the generic-node walk of `bfmetadata.GetMetadata`,
* the sample-annotation reconciliation (`createSampleInfo`,
  `initializeSampleInfo`), the document assembler (`saveMetadataAsYAML`)
  and the batch driver (`processImage`, `processDirectory`), with all
  I/O (subprocess, file system, stdin) supplied by explicit environments.

Strings are modelled as `List Char`; Go machine integers that only ever
hold parsed digit strings are modelled as `Nat` (no arithmetic is done on
them, so overflow is irrelevant); Go `float64` fields are only copied,
never computed with, and are modelled exactly as `Rat`.
-/

/-! ### Character classes of the Go regular expressions

`\s` in Go RE2 is `[\t\n\f\r ]`, `\d` is `[0-9]`. -/

def isWsChar (c : Char) : Bool :=
  c = ' ' || c = '\t' || c = '\n' || c = '\x0c' || c = '\r'

def isDigitChar (c : Char) : Bool :=
  '0' ≤ c && c ≤ '9'

/-- Match a literal at the head of the input; return the rest on success.
This is the primitive from which the fixed regex patterns of the source
are built. -/
def headLit : List Char → List Char → Option (List Char)
  | [], s => some s
  | _ :: _, [] => none
  | c :: cs, d :: ds => if c = d then headLit cs ds else none

/-- Greedily consume `\s*`. -/
def dropWs : List Char → List Char
  | [] => []
  | c :: cs => if isWsChar c then dropWs cs else c :: cs

/-- Digits of the captured `(\d+)` group, as a number.  Go's
`strconv.Atoi` on a non-empty digit string. -/
def digitsToNat (ds : List Char) : Nat :=
  ds.foldl (fun a c => 10 * a + (c.toNat - 48)) 0

/-- Match a sequence of literals, each followed by `\s*`, at the head of
the input.  All patterns in the source have this shape before their
capture group (for example `SizeT\s*=\s*` is `matchLitsWs [T, eq]`). -/
def matchLitsWs : List (List Char) → List Char → Option (List Char)
  | [], s => some s
  | l :: ls, s =>
    match headLit l s with
    | none => none
    | some r => matchLitsWs ls (dropWs r)

/-- Match `lits` (each with trailing `\s*`) then a captured `(\d+)` at the
head of the input; return the captured number and the rest after the
match. -/
def matchNumAt (lits : List (List Char)) (s : List Char) : Option (Nat × List Char) :=
  match matchLitsWs lits s with
  | none => none
  | some r =>
    let ds := r.takeWhile isDigitChar
    if ds.isEmpty then none else some (digitsToNat ds, r.drop ds.length)

/-- Match `lits` (each with trailing `\s*`) then a captured `(true|false)`
at the head of the input (the `Thumbnail\s*series\s*=\s*(true|false)`
pattern). -/
def matchBoolAt (lits : List (List Char)) (s : List Char) : Option (Bool × List Char) :=
  match matchLitsWs lits s with
  | none => none
  | some r =>
    match headLit "true".data r with
    | some r' => some (true, r')
    | none =>
      match headLit "false".data r with
      | some r' => some (false, r')
      | none => none

/-- `FindAllStringSubmatch(s, -1)`: scan left to right; at each position
try the pattern, on success record the capture and continue after the
match, otherwise advance one character.  The fuel is the length of the
input; every step of the patterns used here consumes at least one
character, so the fuel never runs out before the scan ends. -/
def scanAll {α : Type} (step : List Char → Option (α × List Char)) :
    Nat → List Char → List α
  | 0, _ => []
  | _ + 1, [] => []
  | fuel + 1, c :: rest =>
    match step (c :: rest) with
    | some (v, r) => v :: scanAll step fuel r
    | none => scanAll step fuel rest

def findAllNum (lits : List (List Char)) (s : List Char) : List Nat :=
  scanAll (matchNumAt lits) s.length s

def findAllBool (lits : List (List Char)) (s : List Char) : List Bool :=
  scanAll (matchBoolAt lits) s.length s

/-- `FindStringSubmatch`: the first match only; the source defaults the
series count to `0` when there is no match. -/
def findFirstNumD (lits : List (List Char)) (s : List Char) : Nat :=
  (findAllNum lits s).headD 0

/-! ## TxtV1: the text-report prototype of `src/unnamed/part_000`

`readImageMetadata` there extracts `Series count`, and all occurrences of
`SizeT`, `SizeC`, `SizeZ`, then builds one `SeriesInfo` per series index,
defaulting a field to `0` when its occurrence list has no entry at that
index.  The subprocess invocation preceding the parse is not modelled:
the parser is a function of the captured output string, and the parse
stage itself never returns an error in the source. -/

namespace TxtV1

structure SeriesInfo where
  Timepoints : Nat
  Channels : Nat
  ZStacks : Nat
deriving DecidableEq

/-- The values captured by the four regular expressions of
`readImageMetadata`, in document order. -/
structure ReportFields where
  seriesCount : Nat
  sizeT : List Nat
  sizeC : List Nat
  sizeZ : List Nat
deriving DecidableEq

/-- The regex-extraction phase of `readImageMetadata` (part_000 lines
42-59). -/
def extractReportFields (s : List Char) : ReportFields :=
  { seriesCount := findFirstNumD ["Series".data, "count".data, "=".data] s
    sizeT := findAllNum ["SizeT".data, "=".data] s
    sizeC := findAllNum ["SizeC".data, "=".data] s
    sizeZ := findAllNum ["SizeZ".data, "=".data] s }

/-- The per-series loop of `readImageMetadata` (part_000 lines 61-83):
`for i := 0; i < seriesCount; i++`, each field taken from its occurrence
list at index `i` when present and defaulted to `0` otherwise. -/
def buildSeriesInfos (f : ReportFields) : List SeriesInfo :=
  (List.range f.seriesCount).map (fun i =>
    { Timepoints := f.sizeT.getD i 0
      Channels := f.sizeC.getD i 0
      ZStacks := f.sizeZ.getD i 0 })

/-- `readImageMetadata` of part_000, from the raw tool output to the
series list. -/
def readImageMetadata (s : List Char) : List SeriesInfo :=
  buildSeriesInfos (extractReportFields s)

end TxtV1

/-! ## TxtV2: the text-report program of `src/main.go` (second program,
lines 248-423)

Its `readImageMetadata` additionally extracts `Width`, `Height` and
`Thumbnail series`, and only appends a record for series `i` when
`i < len(thumbnailMatches) && thumbnailMatches[i][1] == "false"`.
The independent `DateAndTime` extraction does not interact with the
series list and no claim concerns it. -/

namespace TxtV2

structure SeriesInfo where
  C : Nat
  T : Nat
  X : Nat
  Y : Nat
  Z : Nat
deriving DecidableEq

structure ReportFields where
  seriesCount : Nat
  sizeT : List Nat
  sizeC : List Nat
  sizeZ : List Nat
  sizeX : List Nat
  sizeY : List Nat
  thumbnail : List Bool
deriving DecidableEq

/-- The regex-extraction phase of `readImageMetadata` (main.go lines
300-328). -/
def extractReportFields (s : List Char) : ReportFields :=
  { seriesCount := findFirstNumD ["Series".data, "count".data, "=".data] s
    sizeT := findAllNum ["SizeT".data, "=".data] s
    sizeC := findAllNum ["SizeC".data, "=".data] s
    sizeZ := findAllNum ["SizeZ".data, "=".data] s
    sizeX := findAllNum ["Width".data, "=".data] s
    sizeY := findAllNum ["Height".data, "=".data] s
    thumbnail := findAllBool ["Thumbnail".data, "series".data, "=".data] s }

/-- The per-series loop of `readImageMetadata` (main.go lines 330-364).
Series `i` is appended only when the thumbnail list has entry `false` at
`i`; each numeric field is taken from its occurrence list at `i` when
present and defaulted to `0` otherwise. -/
def buildSeriesInfos (f : ReportFields) : List SeriesInfo :=
  (List.range f.seriesCount).filterMap (fun i =>
    if f.thumbnail.getD i true = false then
      some { C := f.sizeC.getD i 0
             T := f.sizeT.getD i 0
             X := f.sizeX.getD i 0
             Y := f.sizeY.getD i 0
             Z := f.sizeZ.getD i 0 }
    else none)

/-- `readImageMetadata` of the main.go program: the `SeriesInfos` field
of the returned `Metadata`. -/
def readImageMetadata (s : List Char) : List SeriesInfo :=
  buildSeriesInfos (extractReportFields s)

/-- Truncation of every occurrence list to the series count; used to
state that occurrences beyond the count are ignored. -/
def truncateFields (f : ReportFields) : ReportFields :=
  { seriesCount := f.seriesCount
    sizeT := f.sizeT.take f.seriesCount
    sizeC := f.sizeC.take f.seriesCount
    sizeZ := f.sizeZ.take f.seriesCount
    sizeX := f.sizeX.take f.seriesCount
    sizeY := f.sizeY.take f.seriesCount
    thumbnail := f.thumbnail.take f.seriesCount }

end TxtV2

/-! ## The series grouper `printSeriesGroups` (part_000 lines 89-113)

The Go function prints the groups; the embedding returns what is
printed: the "No series information available." message for empty input
is the `noSeries` constructor, otherwise the ordered list of
`(groupStart, i-1, representative)` triples emitted by the loop.
The loop runs `i` from `1` to `n` inclusive, so the remaining iteration
count `n + 1 - i` is passed as structural fuel. -/

namespace TxtV1

/-- Zero value used for list indexing; the loop only indexes in bounds,
so the default is never observable. -/
def dflt : SeriesInfo := ⟨0, 0, 0⟩

inductive GroupReport where
  | noSeries
  | groups (gs : List (Nat × Nat × SeriesInfo))
deriving DecidableEq

/-- The loop body of `printSeriesGroups`: at index `i` (with remaining
fuel `n + 1 - i`), a group is emitted when `i == n` or
`seriesInfos[i] != seriesInfos[groupStart]`. -/
def groupLoop (xs : List SeriesInfo) (n : Nat) :
    Nat → Nat → Nat → List (Nat × Nat × SeriesInfo)
  | 0, _, _ => []
  | fuel + 1, groupStart, i =>
    if i = n ∨ xs.getD i dflt ≠ xs.getD groupStart dflt then
      (groupStart, i - 1, xs.getD groupStart dflt) :: groupLoop xs n fuel i (i + 1)
    else
      groupLoop xs n fuel groupStart (i + 1)

def printSeriesGroups (xs : List SeriesInfo) : GroupReport :=
  if xs.length = 0 then .noSeries
  else .groups (groupLoop xs xs.length xs.length 0 1)

/-- Modelled from the spec's words (§4.4), as the comparison point for
the refinement: run-length encoding into `(startIndex, endIndex,
record)` groups, where a group extends while records are structurally
equal to its first (representative) record.  The fuel is the list
length; each step consumes at least one element. -/
def rleSpecAux : Nat → Nat → List SeriesInfo → List (Nat × Nat × SeriesInfo)
  | 0, _, _ => []
  | _ + 1, _, [] => []
  | fuel + 1, start, x :: rest =>
    (start, start + (rest.takeWhile (fun y => decide (y = x))).length, x) ::
      rleSpecAux fuel (start + (rest.takeWhile (fun y => decide (y = x))).length + 1)
        (rest.drop (rest.takeWhile (fun y => decide (y = x))).length)

def rleSpec (start : Nat) (xs : List SeriesInfo) : List (Nat × Nat × SeriesInfo) :=
  rleSpecAux xs.length start xs

/-- Length of the run of records equal to `xs[g]` starting at index `i`. -/
def runLen (xs : List SeriesInfo) (g i : Nat) : Nat :=
  ((xs.drop i).takeWhile (fun y => decide (y = xs.getD g dflt))).length

end TxtV1

/-! ## Path helpers of the Go standard library used by `processImage`

`filepath.Ext` returns the suffix beginning at the final dot in the
final path element (empty when that element has no dot); on Windows both
`/` and `\` separate elements.  `strings.TrimSuffix` removes the suffix
when present. -/

def isSepChar (c : Char) : Bool := c = '/' || c = '\\'

/-- Scan the reversed path; `acc` holds the characters already passed,
in original order. -/
def extOfRev (acc : List Char) : List Char → List Char
  | [] => []
  | c :: rest =>
    if c = '.' then c :: acc
    else if isSepChar c then []
    else extOfRev (c :: acc) rest

/-- Go `filepath.Ext`. -/
def extOf (p : List Char) : List Char :=
  extOfRev [] p.reverse

/-- Go `strings.TrimSuffix`. -/
def trimSuffixL (s suffix : List Char) : List Char :=
  if suffix.isSuffixOf s then s.take (s.length - suffix.length) else s

/-! ## bfmetadata: `src/bfmetadata/metadata.go`

`GetOmexmlMetadata` runs the tool and then keeps the output from the
first `<?xml` marker on; `GetMetadata` parses the cleaned output into a
generic `Node` tree and walks it, decoding `Instrument` and `Image`
nodes into typed records, printing (and otherwise ignoring) decode
errors.  The subprocess and the `encoding/xml` library are external:
they are supplied as an environment (the raw output, the root
unmarshalling, and the per-node typed unmarshallings); a Go unmarshal
is modelled as atomic (on failure the target record is unchanged). -/

namespace Bfmetadata

def xmlMarker : List Char := "<?xml".data

/-- Go `strings.Index(s, sub)`: the first index at which `sub` occurs. -/
def stringsIndex (sub : List Char) : List Char → Option Nat
  | [] => if (headLit sub []).isSome then some 0 else none
  | c :: rest =>
    if (headLit sub (c :: rest)).isSome then some 0
    else (stringsIndex sub rest).map (· + 1)

/-- The output-cleaning step of `GetOmexmlMetadata` (metadata.go lines
159-165): keep the suffix from the first `<?xml` on, or fail with the
no-XML-content error. -/
def cleanedXmlOutput (output : List Char) : Except String (List Char) :=
  match stringsIndex xmlMarker output with
  | some i => .ok (output.drop i)
  | none => .error "no XML content found in output"

structure Node where
  name : String
  content : String
  nodes : List Node

structure Detector where
  ID : String
  Model : String
  TypeAttr : String
deriving DecidableEq

structure Objective where
  ID : String
  Correction : String
  Immersion : String
  LensNA : String
  Manufacturer : String
  Model : String
  NominalMagnification : String
  WorkingDistance : String
  WorkingDistanceUnit : String
deriving DecidableEq

structure Instrument where
  ID : String
  Detector : Detector
  Objective : Objective
deriving DecidableEq

structure Ref where
  ID : String
deriving DecidableEq

structure Channel where
  EmissionWavelength : String
  ExcitationWavelength : String
  ID : String
  Name : String
deriving DecidableEq

structure Pixels where
  BigEndian : String
  DimensionOrder : String
  ID : String
  Interleaved : String
  PhysicalSizeX : String
  PhysicalSizeY : String
  PhysicalSizeZ : String
  SizeC : String
  SizeT : String
  SizeX : String
  SizeY : String
  SizeZ : String
  TypeAttr : String
  Channels : List Channel
deriving DecidableEq

structure Image where
  ID : String
  Name : String
  AcquisitionDate : String
  InstrumentRef : Ref
  ObjectiveRef : Ref
  Pixels : Pixels
deriving DecidableEq

/-- The Go zero value of `Instrument`, the state of `var instr
Instrument` before any successful decode. -/
def zeroInstrument : Instrument :=
  { ID := "", Detector := ⟨"", "", ""⟩
    Objective := ⟨"", "", "", "", "", "", "", "", ""⟩ }

/-- The Go zero value of `Image`. -/
def zeroImage : Image :=
  { ID := "", Name := "", AcquisitionDate := ""
    InstrumentRef := ⟨""⟩, ObjectiveRef := ⟨""⟩
    Pixels := { BigEndian := "", DimensionOrder := "", ID := ""
                Interleaved := "", PhysicalSizeX := "", PhysicalSizeY := ""
                PhysicalSizeZ := "", SizeC := "", SizeT := "", SizeX := ""
                SizeY := "", SizeZ := "", TypeAttr := "", Channels := [] } }

/-- External effects of `GetMetadata`: the raw tool output of the
`showinf.bat` invocation, the `xml.Unmarshal` into the generic `Node`
root, and the `xml.Unmarshal` of a node's inner content into the typed
records. -/
structure XmlEnv where
  rawToolOutput : Except String (List Char)
  parseRoot : List Char → Except String Node
  decodeInstrument : String → Except String Instrument
  decodeImage : String → Except String Image

/-- `GetOmexmlMetadata` (metadata.go lines 134-166): tool failure is
surfaced; otherwise the output is cleaned to start at `<?xml`. -/
def GetOmexmlMetadata (env : XmlEnv) : Except String (List Char) :=
  match env.rawToolOutput with
  | .error e => .error ("error executing showinf.bat to get metadata: " ++ e)
  | .ok out => cleanedXmlOutput out

/-- The `walk` recursion (metadata.go lines 241-247) with the state
threaded through the `processFunc` closure: the closure is called on
every node of the list, and its child list is walked when it returns
`true`. -/
def walkFold {α : Type} (step : α → Node → α × Bool) : α → List Node → α
  | st, [] => st
  | st, Node.mk nm ct children :: rest =>
    let s1 := step st (Node.mk nm ct children)
    let s2 := if s1.2 then walkFold step s1.1 children else s1.1
    walkFold step s2 rest

/-- The `processFunc` closure of `GetMetadata` (metadata.go lines
209-221): decode recognized `Instrument`/`Image` nodes into the
captured records, printing decode errors and leaving the record
unchanged; always return `true` so the walk continues. -/
def stepGM (env : XmlEnv) (st : Instrument × Image) (n : Node) :
    (Instrument × Image) × Bool :=
  match n.name with
  | "Instrument" =>
    match env.decodeInstrument n.content with
    | .error _ => (st, true)
    | .ok v => ((v, st.2), true)
  | "Image" =>
    match env.decodeImage n.content with
    | .error _ => (st, true)
    | .ok v => ((st.1, v), true)
  | _ => (st, true)

/-- `ParseAndProcessMetadata` (metadata.go lines 230-238) specialised to
the `GetMetadata` closure: unmarshal the root, then walk `root.Nodes`. -/
def ParseAndProcessMetadata (env : XmlEnv) (xmlData : List Char) :
    Except String (Instrument × Image) :=
  match env.parseRoot xmlData with
  | .error e => .error ("error parsing XML: " ++ e)
  | .ok root => .ok (walkFold (stepGM env) (zeroInstrument, zeroImage) root.nodes)

/-- `GetMetadata` (metadata.go lines 200-227). -/
def GetMetadata (env : XmlEnv) : Except String (Instrument × Image) :=
  match GetOmexmlMetadata env with
  | .error e => .error ("error retrieving OME-XML metadata: " ++ e)
  | .ok metadataXML =>
    match ParseAndProcessMetadata env metadataXML with
    | .error e => .error ("error processing XML metadata: " ++ e)
    | .ok p => .ok p

end Bfmetadata

/-! ## App: the batch application of `src/unnamed/part_001`

Data model of the OME-XML unmarshalling target and of the YAML
documents.  Go `int` fields hold parsed attribute values; `float64`
fields are only copied, never computed with, and are modelled exactly
as `Rat`.  Go maps built by indexed loops are modelled as association
lists in insertion order. -/

namespace App

structure Channel where
  ID : String
  Name : String
  EmissionWavelength : Rat
  ExcitationWavelength : Rat
  SamplesPerPixel : Int
deriving DecidableEq

structure Pixels where
  SizeX : Int
  SizeY : Int
  SizeZ : Int
  SizeC : Int
  SizeT : Int
  PhysicalSizeX : Rat
  PhysicalSizeY : Rat
  PhysicalSizeZ : Rat
  Channels : List Channel
deriving DecidableEq

structure Image where
  ID : String
  Name : String
  AcquisitionDate : String
  Pixels : Pixels
deriving DecidableEq

structure Metadata where
  Images : List Image
deriving DecidableEq

structure ChannelSample where
  Fluorophore : String
deriving DecidableEq

structure SampleInfo where
  Channels : List (String × ChannelSample)
  ELNID : String
  SampleName : String
deriving DecidableEq

structure ChannelInfo where
  NameID : String
  EmissionWavelength : Rat
  ExcitationWavelength : Rat
deriving DecidableEq

structure ImageDimensions where
  SizeC : Int
  SizeT : Int
  SizeX : Int
  SizeY : Int
  SizeZ : Int
deriving DecidableEq

structure PixelSizeInfo where
  PhysicalSizeX : Rat
  PhysicalSizeY : Rat
  PhysicalSizeZ : Option Rat
deriving DecidableEq

structure AcquisitionMetadata where
  Channels : List (String × ChannelInfo)
  DateAndTime : String
  ImageDims : ImageDimensions
  PixelSize : PixelSizeInfo
deriving DecidableEq

structure FinalYAML where
  AcquisitionMetadata : AcquisitionMetadata
  SampleInfo : SampleInfo
deriving DecidableEq

/-- `createSampleInfo` (part_001 lines 225-245): keys `Channel 1` ..
`Channel numChannels`; channels 1 and 2 get the fill-in fluorophore
placeholder, channels from 3 on get `"NA"`. -/
def createSampleInfo (numChannels : Nat) : SampleInfo :=
  { Channels := (List.range numChannels).map (fun j =>
      ("Channel " ++ toString (j + 1),
       if j + 1 ≤ 2 then ChannelSample.mk "Please_fill_in_a_fluorophore"
       else ChannelSample.mk "NA"))
    ELNID := "Please_fill_in_ELN_ID"
    SampleName := "Please_fill_in_a_sample_name" }

/-- External effects of `initializeSampleInfo`: whether
`inputSampleInfo.yaml` already exists, the results of
`createSampleInfoFile`, `os.Remove` and of reading-and-unmarshalling the
(possibly user-edited) file, and the answer of
`waitForUserConfirmation`. -/
structure AnnotEnv where
  fileExistsAtStart : Bool
  createFile : Except String Unit
  removeFile : Except String Unit
  load : Except String SampleInfo
  userConfirms : Bool

/-- The reconciliation of `initializeSampleInfo` (part_001 lines
168-222), after `numChannels` has been derived from the batch's first
image (the directory scan and first-image read that precede it are
shared-setup steps whose failures abort the run and are not part of the
claims settled here).  The second component of the result records
whether the annotation file exists when the function returns. -/
def initializeSampleInfo (env : AnnotEnv) (numChannels : Nat) :
    Except String (SampleInfo × Bool) :=
  if env.fileExistsAtStart then
    if env.userConfirms then
      match env.load with
      | .error e => .error ("error reading or unmarshaling sample info file: " ++ e)
      | .ok si => .ok (si, true)
    else
      match env.removeFile with
      | .error e => .error ("error deleting sample info file: " ++ e)
      | .ok _ =>
        match env.createFile with
        | .error e => .error ("error creating sample info file: " ++ e)
        | .ok _ => .ok (createSampleInfo numChannels, true)
  else
    match env.createFile with
    | .error e => .error ("error creating sample info file: " ++ e)
    | .ok _ =>
      if env.userConfirms then
        match env.load with
        | .error e => .error ("error reading or unmarshaling sample info file: " ++ e)
        | .ok si => .ok (si, true)
      else
        match env.removeFile with
        | .error e => .error ("error deleting sample info file: " ++ e)
        | .ok _ => .ok (createSampleInfo numChannels, false)

/-- The document-assembly part of `saveMetadataAsYAML` (part_001 lines
328-358): build the acquisition metadata from the first image and pair
it with the shared sample info.  `metadata.Images[0]` panics in Go when
`Images` is empty; that case is `none`.  There is no channel-count
comparison anywhere in the function. -/
def assembleFinalYAML (metadata : Metadata) (sampleInfo : SampleInfo) :
    Option FinalYAML :=
  match metadata.Images with
  | [] => none
  | img0 :: _ =>
    some
      { AcquisitionMetadata :=
          { Channels := img0.Pixels.Channels.enum.map (fun ic =>
              ("Channel " ++ toString (ic.1 + 1),
               { NameID := ic.2.ID ++ " " ++ ic.2.Name
                 EmissionWavelength := ic.2.EmissionWavelength
                 ExcitationWavelength := ic.2.ExcitationWavelength }))
            DateAndTime := img0.AcquisitionDate
            ImageDims :=
              { SizeC := img0.Pixels.SizeC, SizeT := img0.Pixels.SizeT
                SizeX := img0.Pixels.SizeX, SizeY := img0.Pixels.SizeY
                SizeZ := img0.Pixels.SizeZ }
            PixelSize :=
              { PhysicalSizeX := img0.Pixels.PhysicalSizeX
                PhysicalSizeY := img0.Pixels.PhysicalSizeY
                PhysicalSizeZ := some img0.Pixels.PhysicalSizeZ } }
        SampleInfo := sampleInfo }

/-- The `_F\d+\.ims$` test of `processImage` (part_001 line 253): the
path ends with `_F`, one or more digits, then `.ims`. -/
def matchesFNumIms (p : List Char) : Bool :=
  ((headLit ".ims".data.reverse p.reverse).map (fun r1 =>
    !(r1.takeWhile isDigitChar).isEmpty &&
      (headLit "_F".data.reverse (r1.drop (r1.takeWhile isDigitChar).length)).isSome)).getD
    false

/-- `regexp.MustCompile("_F\\d+$").ReplaceAllString(base, "")` (part_001
line 256): remove one trailing `_F<digits>` group when present. -/
def stripFNum (base : List Char) : List Char :=
  if !(base.reverse.takeWhile isDigitChar).isEmpty &&
      (headLit "_F".data.reverse
        (base.reverse.drop (base.reverse.takeWhile isDigitChar).length)).isSome then
    ((base.reverse.drop (base.reverse.takeWhile isDigitChar).length).drop 2).reverse
  else base

/-- The companion-metadata-path derivation of `processImage` (part_001
lines 250-261), applied when the extension is `.ims`. -/
def deriveMetadataPath (imagePath : List Char) : List Char :=
  if matchesFNumIms imagePath then
    stripFNum (trimSuffixL imagePath (extOf imagePath)) ++ "_metadata.txt".data
  else
    trimSuffixL imagePath ".ims".data ++ "_metadata.txt".data

/-- External effects of `processImage`/`processDirectory`: the
`os.Stat` existence check of the companion metadata text file, the
`bfReadImageMetadata` subprocess-and-unmarshal result per image path,
and the `os.WriteFile` result per output path. -/
structure ProcEnv where
  metadataTxtExists : List Char → Bool
  bfRead : List Char → Except String Metadata
  save : List Char → Except String Unit

/-- What one `processImage` call does.  `fatal` is `log.Fatalf`, which
exits the process; `panicked` is the index-out-of-range panic of
`saveMetadataAsYAML` on a metadata with no images; the other outcomes
return normally (the Go function always returns `nil`). -/
inductive ImgOutcome where
  | fatal (msg : String)
  | panicked
  | skippedNoMetadataTxt
  | savedOk
  | saveErrorLogged (msg : String)
deriving DecidableEq

/-- The tail of `processImage` (part_001 lines 276-288):
`bfReadImageMetadata`, then `saveMetadataAsYAML` to the path obtained by
replacing the extension with `_sampleInfo.yaml`.  A read failure hits
`log.Fatalf`; a save failure is logged with `log.Printf` and the
function returns normally. -/
def processImageBF (env : ProcEnv) (imagePath : List Char)
    (sampleInfo : SampleInfo) : ImgOutcome :=
  match env.bfRead imagePath with
  | .error e => .fatal ("Skipping file: " ++ e)
  | .ok metadata =>
    match assembleFinalYAML metadata sampleInfo with
    | none => .panicked
    | some _ =>
      match env.save (trimSuffixL imagePath (extOf imagePath) ++ "_sampleInfo.yaml".data) with
      | .error e => .saveErrorLogged ("Error saving metadata as YAML: " ++ e)
      | .ok _ => .savedOk

/-- `processImage` (part_001 lines 247-289).  For an `.ims` path the
companion metadata text path is derived; when that file does not exist
the function prints a message and returns early.  When it exists,
`ParseImsMetadatatxt` (an external package) is called and its result
only printed, after which control falls through to
`bfReadImageMetadata` in every case. -/
def processImage (env : ProcEnv) (imagePath : List Char)
    (sampleInfo : SampleInfo) : ImgOutcome :=
  if extOf imagePath = ".ims".data then
    if env.metadataTxtExists (deriveMetadataPath imagePath) then
      processImageBF env imagePath sampleInfo
    else .skippedNoMetadataTxt
  else processImageBF env imagePath sampleInfo

/-- Outcome of a directory batch: either the process exited while
handling `failedAt` (after fully processing `processedSoFar`), or every
matching file was processed. -/
inductive BatchResult where
  | aborted (processedSoFar : List (List Char)) (failedAt : List Char)
  | completed (processed : List (List Char))
deriving DecidableEq

/-- `processDirectory` (part_001 lines 291-306): for every non-directory
entry whose name ends with `ext`, call `processImage` on
`filepath.Join(path, name)`.  `processImage` never returns a non-nil
error, so the loop only stops early if the process exits
(`log.Fatalf` or a panic) inside `processImage`. -/
def processDirectory (env : ProcEnv) (path ext : List Char)
    (sampleInfo : SampleInfo) : List (List Char) → BatchResult
  | [] => .completed []
  | name :: rest =>
    if ext.isSuffixOf name then
      let filePath := path ++ '/' :: name
      match processImage env filePath sampleInfo with
      | .fatal _ => .aborted [] filePath
      | .panicked => .aborted [] filePath
      | _ =>
        match processDirectory env path ext sampleInfo rest with
        | .aborted ps f => .aborted (filePath :: ps) f
        | .completed ps => .completed (filePath :: ps)
    else processDirectory env path ext sampleInfo rest

end App

/-! ## Concrete inputs used to settle the claims -/

/-- A text report in which `SizeT` is absent for series 0 (of 2) and
present (`7`) for series 1: the SizeT occurrence list is `[7]`, one
entry short of the series count. -/
def c1Report : List Char :=
  ("Series count = 2\nSeries #0 :\n\tSizeC = 3\n\tSizeZ = 4\n\tThumbnail series = false\n" ++
   "Series #1 :\n\tSizeT = 7\n\tSizeC = 5\n\tSizeZ = 6\n\tThumbnail series = false\n").data

/-- The end-to-end scenario of the spec (§8): two series, the second a
thumbnail. -/
def c6Report : List Char :=
  ("Series count = 2\nSeries #0 :\n\tSizeT = 1\n\tSizeC = 2\n\tSizeZ = 5\n\tThumbnail series = false\n" ++
   "Series #1 :\n\tSizeT = 1\n\tSizeC = 2\n\tSizeZ = 1\n\tThumbnail series = true\n").data

/-- A one-image, one-channel metadata document. -/
def c2md : App.Metadata :=
  ⟨[{ ID := "Image:0", Name := "a", AcquisitionDate := "2024-01-01"
      Pixels := { SizeX := 4, SizeY := 4, SizeZ := 1, SizeC := 1, SizeT := 1
                  PhysicalSizeX := 1, PhysicalSizeY := 1, PhysicalSizeZ := 1
                  Channels := [{ ID := "Channel:0", Name := "ch", EmissionWavelength := 0
                                 ExcitationWavelength := 0, SamplesPerPixel := 1 }] } }]⟩

/-- Environment for a directory batch where reading the first image's
metadata fails and everything else succeeds. -/
def c2env : App.ProcEnv :=
  { metadataTxtExists := fun _ => true
    bfRead := fun p => if p = "d/a.dv".data then .error "boom" else .ok c2md
    save := fun _ => .ok () }

/-- Environment where every metadata read succeeds but every save
fails. -/
def c2envSaveFail : App.ProcEnv :=
  { metadataTxtExists := fun _ => true
    bfRead := fun _ => .ok c2md
    save := fun _ => .error "disk full" }

def c2si : App.SampleInfo := App.createSampleInfo 1

/-- An image record with two channels. -/
def c3img : App.Image :=
  { ID := "Image:0", Name := "b", AcquisitionDate := "2024-05-05"
    Pixels := { SizeX := 512, SizeY := 512, SizeZ := 10, SizeC := 2, SizeT := 1
                PhysicalSizeX := 1, PhysicalSizeY := 1, PhysicalSizeZ := 2
                Channels :=
                  [{ ID := "Channel:0", Name := "c0", EmissionWavelength := 520
                     ExcitationWavelength := 488, SamplesPerPixel := 1 },
                   { ID := "Channel:1", Name := "c1", EmissionWavelength := 610
                     ExcitationWavelength := 561, SamplesPerPixel := 1 }] } }

/-- A one-image metadata document with two channels. -/
def c3md : App.Metadata := ⟨[c3img]⟩

/-- A sample-annotation set for three channels, a different channel
layout than `c3md`. -/
def c3si : App.SampleInfo := App.createSampleInfo 3

/-- Environment for the no-prior-file, answer-"no" reconciliation. -/
def c4env : App.AnnotEnv :=
  { fileExistsAtStart := false
    createFile := .ok ()
    removeFile := .ok ()
    load := .error "not reached"
    userConfirms := false }

def c5Xml : List Char := ("<?xml version=\"1.0\"?><OME></OME>").data

/-- Tool output: a log line, then the XML document. -/
def c5Sample : List Char := ("showinf log line\n").data ++ c5Xml

/-- A decoded Image record, as produced by a successful typed
unmarshal. -/
def c9img : Bfmetadata.Image :=
  { ID := "Image:0", Name := "n", AcquisitionDate := "2024"
    InstrumentRef := ⟨"Instrument:0"⟩, ObjectiveRef := ⟨"Objective:0"⟩
    Pixels := { BigEndian := "false", DimensionOrder := "XYZCT", ID := "Pixels:0"
                Interleaved := "false", PhysicalSizeX := "0.1", PhysicalSizeY := "0.1"
                PhysicalSizeZ := "0.2", SizeC := "1", SizeT := "1", SizeX := "4"
                SizeY := "4", SizeZ := "1", TypeAttr := "uint16", Channels := [] } }

/-- A parsed generic tree: an `Instrument` node whose content fails to
decode, then an `Image` node whose content decodes. -/
def c9root : Bfmetadata.Node :=
  ⟨"OME", "", [⟨"Instrument", "badContent", []⟩, ⟨"Image", "goodContent", []⟩]⟩

def c9env : Bfmetadata.XmlEnv :=
  { rawToolOutput := .ok ("<?xml version=\"1.0\"?><OME></OME>").data
    parseRoot := fun _ => .ok c9root
    decodeInstrument := fun _ => .error "unmarshalling Instrument failed"
    decodeImage := fun c =>
      if c = "goodContent" then .ok c9img else .error "unmarshalling Image failed" }
namespace TxtV1

lemma rleSpecAux_nil : ∀ fuel st, rleSpecAux fuel st [] = [] := by
  intro fuel st
  cases fuel <;> rfl

lemma rleSpecAux_fuel : ∀ fuel st (l : List SeriesInfo), l.length ≤ fuel →
    rleSpecAux fuel st l = rleSpec st l := by
  intro fuel
  induction fuel using Nat.strong_induction_on with
  | _ fuel ih =>
    intro st l hl
    cases l with
    | nil => rw [rleSpecAux_nil, rleSpec, rleSpecAux_nil]
    | cons x rest =>
      cases fuel with
      | zero => simp at hl
      | succ f =>
        have hlen : rest.length ≤ f := by simpa using hl
        have hk : (rest.takeWhile (fun y => decide (y = x))).length ≤ rest.length :=
          (List.takeWhile_prefix _).length_le
        have hd : (rest.drop (rest.takeWhile (fun y => decide (y = x))).length).length
            ≤ rest.length := by
          rw [List.length_drop]; omega
        rw [rleSpec]
        simp only [List.length_cons, rleSpecAux]
        have e1 := ih f (by omega)
          (st + (rest.takeWhile (fun y => decide (y = x))).length + 1)
          (rest.drop (rest.takeWhile (fun y => decide (y = x))).length) (by omega)
        have e2 := ih rest.length (by omega)
          (st + (rest.takeWhile (fun y => decide (y = x))).length + 1)
          (rest.drop (rest.takeWhile (fun y => decide (y = x))).length) (by omega)
        rw [e1, e2]

lemma groupLoop_run : ∀ fuel (xs : List SeriesInfo) g i,
    fuel = xs.length + 1 - i → g < i → i ≤ xs.length →
    groupLoop xs xs.length fuel g i =
      (g, i + runLen xs g i - 1, xs.getD g dflt) ::
        groupLoop xs xs.length (xs.length - (i + runLen xs g i)) (i + runLen xs g i)
          (i + runLen xs g i + 1) := by
  intro fuel
  induction fuel with
  | zero => intro xs g i hf hg hi; omega
  | succ f ihf =>
    intro xs g i hf hg hi
    by_cases hcond : i = xs.length ∨ xs.getD i dflt ≠ xs.getD g dflt
    · have hrl : runLen xs g i = 0 := by
        by_cases hil : i = xs.length
        · simp [runLen, hil, List.drop_length]
        · have hilt : i < xs.length := lt_of_le_of_ne hi hil
          have hne : xs.getD i dflt ≠ xs.getD g dflt := by tauto
          rw [List.getD_eq_getElem xs dflt hilt] at hne
          have hne' : decide (xs[i] = xs.getD g dflt) = false := decide_eq_false hne
          rw [runLen, List.drop_eq_getElem_cons hilt]
          simp only [List.takeWhile_cons]
          rw [hne']
          simp
      rw [groupLoop, if_pos hcond, hrl]
      have hfi : f = xs.length - i := by omega
      simp only [Nat.add_zero, hfi]
    · push_neg at hcond
      obtain ⟨hil, heq⟩ := hcond
      have hilt : i < xs.length := lt_of_le_of_ne hi hil
      rw [groupLoop, if_neg (by tauto)]
      have hrl : runLen xs g i = runLen xs g (i + 1) + 1 := by
        rw [List.getD_eq_getElem xs dflt hilt] at heq
        have heq' : decide (xs[i] = xs.getD g dflt) = true := decide_eq_true heq
        rw [runLen, List.drop_eq_getElem_cons hilt]
        simp only [List.takeWhile_cons]
        rw [heq']
        simp [runLen]
      rw [ihf xs g (i + 1) (by omega) (by omega) (by omega)]
      have h1 : (i + 1) + runLen xs g (i + 1) = i + runLen xs g i := by omega
      rw [h1]

lemma groupLoop_eq_rleSpec : ∀ m (xs : List SeriesInfo) g,
    m = xs.length - g → g < xs.length →
    groupLoop xs xs.length (xs.length - g) g (g + 1) = rleSpec g (xs.drop g) := by
  intro m
  induction m using Nat.strong_induction_on with
  | _ m ih =>
    intro xs g hm hg
    have h2 := groupLoop_run (xs.length - g) xs g (g + 1) (by omega) (by omega) (by omega)
    rw [h2]
    have hKle : runLen xs g (g + 1) ≤ xs.length - (g + 1) := by
      have h3 : runLen xs g (g + 1) ≤ (xs.drop (g + 1)).length :=
        (List.takeWhile_prefix _).length_le
      rw [List.length_drop] at h3
      exact h3
    have hdg : xs.drop g = xs.getD g dflt :: xs.drop (g + 1) := by
      rw [List.getD_eq_getElem xs dflt hg]
      exact List.drop_eq_getElem_cons hg
    rw [hdg, rleSpec]
    simp only [List.length_cons, rleSpecAux]
    have hkk : (List.takeWhile (fun y => decide (y = xs.getD g dflt)) (xs.drop (g + 1))).length
        = runLen xs g (g + 1) := rfl
    rw [hkk]
    have hhead : g + 1 + runLen xs g (g + 1) - 1 = g + runLen xs g (g + 1) := by omega
    rw [hhead]
    congr 1
    rw [List.drop_drop]
    by_cases hend : g + 1 + runLen xs g (g + 1) = xs.length
    · have hnil : xs.drop (g + 1 + runLen xs g (g + 1)) = [] := by
        rw [hend]; exact List.drop_length xs
      rw [hnil, hend, Nat.sub_self, rleSpecAux_nil, groupLoop]
    · have hlt : g + 1 + runLen xs g (g + 1) < xs.length := by omega
      rw [rleSpecAux_fuel (xs.drop (g + 1)).length (g + runLen xs g (g + 1) + 1)
        (xs.drop (g + 1 + runLen xs g (g + 1))) (by rw [List.length_drop, List.length_drop]; omega)]
      have harg : g + runLen xs g (g + 1) + 1 = g + 1 + runLen xs g (g + 1) := by omega
      rw [harg]
      exact ih (xs.length - (g + 1 + runLen xs g (g + 1))) (by omega) xs
        (g + 1 + runLen xs g (g + 1)) rfl hlt

end TxtV1

/-! ## Shared helper lemmas -/

lemma length_filterMap_eq_of_all_some {α β : Type} (f : α → Option β) (l : List α)
    (h : ∀ a ∈ l, (f a).isSome) : (l.filterMap f).length = l.length := by
  induction l with
  | nil => rfl
  | cons a l ih =>
    rw [List.filterMap_cons]
    cases hfa : f a with
    | none => exact absurd (hfa ▸ h a (List.mem_cons_self a l)) (by simp)
    | some b =>
      simp only [List.length_cons]
      rw [ih (fun x hx => h x (List.mem_cons_of_mem a hx))]

lemma getD_take_of_lt {α : Type} {n i : Nat} (h : i < n) (l : List α) (d : α) :
    (l.take n).getD i d = l.getD i d := by
  rw [List.getD_eq_getElem?_getD, List.getD_eq_getElem?_getD, List.getElem?_take, if_pos h]

/-! ## Claims about the text-report parsers -/

/-- C1: the claim says that when exactly one field's occurrence list is
shorter than the series count, the parser defaults only the missing
series' value and never shifts a later series' value.  On `c1Report`,
where series 0 lacks `SizeT` and series 1 has `SizeT = 7`, the single
extracted occurrence `7` is assigned positionally to series 0 and series
1 is defaulted to `0`: the later series' value shifts to the earlier
series, the opposite of the claimed `[{T:0},{T:7}]`. -/
theorem C1_missing_field_shifts_series_values :
    TxtV2.readImageMetadata c1Report =
      [{ C := 3, T := 7, X := 0, Y := 0, Z := 4 },
       { C := 5, T := 0, X := 0, Y := 0, Z := 6 }] ∧
    TxtV2.readImageMetadata c1Report ≠
      [{ C := 3, T := 0, X := 0, Y := 0, Z := 4 },
       { C := 5, T := 7, X := 0, Y := 0, Z := 6 }] := by
  constructor <;> decide

/-- C6: with complete occurrence lists the part_000 parser returns
exactly `n` records in index order carrying the extracted values; the
main.go parser returns exactly `n` records when additionally no series
is thumbnail-flagged; and the spec's end-to-end scenario (two series,
the second a thumbnail) yields exactly the one non-thumbnail record
`{T:1, C:2, Z:5}`. -/
theorem C6_complete_report_parsing :
    (∀ (n : Nat) (tL cL zL : List Nat), tL.length = n → cL.length = n → zL.length = n →
      (TxtV1.buildSeriesInfos ⟨n, tL, cL, zL⟩).length = n ∧
      (∀ (i t c z : Nat), tL[i]? = some t → cL[i]? = some c → zL[i]? = some z →
        (TxtV1.buildSeriesInfos ⟨n, tL, cL, zL⟩)[i]? = some (TxtV1.SeriesInfo.mk t c z))) ∧
    (∀ f : TxtV2.ReportFields, f.thumbnail.length = f.seriesCount →
      (∀ b ∈ f.thumbnail, b = false) →
      (TxtV2.buildSeriesInfos f).length = f.seriesCount) ∧
    TxtV2.readImageMetadata c6Report = [{ C := 2, T := 1, X := 0, Y := 0, Z := 5 }] := by
  refine ⟨?_, ?_, by decide⟩
  · intro n tL cL zL ht hc hz
    constructor
    · simp [TxtV1.buildSeriesInfos]
    · intro i t c z hti hci hzi
      have hi : i < n := by
        obtain ⟨hlt, _⟩ := List.getElem?_eq_some_iff.mp hti
        omega
      rw [TxtV1.buildSeriesInfos, List.getElem?_map, List.getElem?_range hi]
      simp only [Option.map_some']
      rw [List.getD_eq_getElem?_getD, List.getD_eq_getElem?_getD, List.getD_eq_getElem?_getD,
        hti, hci, hzi]
      rfl
  · intro f hlen hfalse
    rw [TxtV2.buildSeriesInfos]
    rw [length_filterMap_eq_of_all_some _ _ ?_, List.length_range]
    intro i hi
    rw [List.mem_range] at hi
    have hil : i < f.thumbnail.length := by omega
    have hf : f.thumbnail.getD i true = false := by
      rw [List.getD_eq_getElem _ _ hil]
      exact hfalse _ (List.getElem_mem hil)
    rw [if_pos hf]
    rfl

/-- C6 witness: the theorem applied to a complete one-series report. -/
theorem C6_complete_report_parsing_witness :
    (TxtV1.buildSeriesInfos ⟨1, [4], [5], [6]⟩).length = 1 ∧
    (TxtV1.buildSeriesInfos ⟨1, [4], [5], [6]⟩)[0]? = some (TxtV1.SeriesInfo.mk 4 5 6) :=
  ⟨(C6_complete_report_parsing.1 1 [4] [5] [6] rfl rfl rfl).1,
   (C6_complete_report_parsing.1 1 [4] [5] [6] rfl rfl rfl).2 0 4 5 6 rfl rfl rfl⟩

/-- C7: the grouper run-length-encodes its input — for nonempty input it
returns exactly the groups of the spec's run-length encoding `rleSpec`
(adjacent structurally equal records merge; a new group starts at the
first index differing from the group's representative); the empty input
yields the explicit no-series report; and the spec's example groups as
stated. -/
theorem C7_series_grouping_rle :
    TxtV1.printSeriesGroups [] = TxtV1.GroupReport.noSeries ∧
    (∀ xs : List TxtV1.SeriesInfo, xs ≠ [] →
      TxtV1.printSeriesGroups xs = TxtV1.GroupReport.groups (TxtV1.rleSpec 0 xs)) ∧
    TxtV1.printSeriesGroups [⟨1, 1, 1⟩, ⟨1, 1, 1⟩, ⟨2, 1, 1⟩] =
      TxtV1.GroupReport.groups [(0, 1, ⟨1, 1, 1⟩), (2, 2, ⟨2, 1, 1⟩)] := by
  refine ⟨rfl, ?_, by decide⟩
  intro xs hxs
  have hlen : ¬ xs.length = 0 := by simpa using hxs
  rw [TxtV1.printSeriesGroups, if_neg hlen]
  have h0 : 0 < xs.length := Nat.pos_of_ne_zero hlen
  have h := TxtV1.groupLoop_eq_rleSpec xs.length xs 0 (by omega) h0
  rw [List.drop_zero] at h
  exact congrArg _ h

/-- C7 witness: the theorem applied to a concrete nonempty input. -/
theorem C7_series_grouping_rle_witness :
    TxtV1.printSeriesGroups [⟨3, 2, 1⟩] =
      TxtV1.GroupReport.groups (TxtV1.rleSpec 0 [⟨3, 2, 1⟩]) :=
  C7_series_grouping_rle.2.1 [⟨3, 2, 1⟩] (by decide)

/-- C8: both text-report parsers return at most `seriesCount` records
(part_000's always exactly `seriesCount`); occurrences beyond the
`seriesCount`-th never influence the result; and a missing or zero
series count yields the empty series list (the parse stage is total, so
no error is possible). -/
theorem C8_parser_count_invariants :
    (∀ f : TxtV2.ReportFields, (TxtV2.buildSeriesInfos f).length ≤ f.seriesCount) ∧
    (∀ f : TxtV2.ReportFields,
      TxtV2.buildSeriesInfos (TxtV2.truncateFields f) = TxtV2.buildSeriesInfos f) ∧
    (∀ f : TxtV2.ReportFields, f.seriesCount = 0 → TxtV2.buildSeriesInfos f = []) ∧
    (∀ s : List Char, (TxtV2.extractReportFields s).seriesCount = 0 →
      TxtV2.readImageMetadata s = []) ∧
    (∀ f : TxtV1.ReportFields, (TxtV1.buildSeriesInfos f).length = f.seriesCount) ∧
    (∀ s : List Char, (TxtV1.extractReportFields s).seriesCount = 0 →
      TxtV1.readImageMetadata s = []) := by
  have h3 : ∀ f : TxtV2.ReportFields, f.seriesCount = 0 → TxtV2.buildSeriesInfos f = [] := by
    intro f h
    rw [TxtV2.buildSeriesInfos, h]
    rfl
  have h5 : ∀ f : TxtV1.ReportFields, (TxtV1.buildSeriesInfos f).length = f.seriesCount := by
    intro f
    simp [TxtV1.buildSeriesInfos]
  refine ⟨?_, ?_, h3, ?_, h5, ?_⟩
  · intro f
    calc (TxtV2.buildSeriesInfos f).length
        ≤ (List.range f.seriesCount).length := List.length_filterMap_le _ _
      _ = f.seriesCount := List.length_range _
  · intro f
    rw [TxtV2.buildSeriesInfos, TxtV2.buildSeriesInfos]
    apply List.filterMap_congr
    intro i hi
    rw [List.mem_range] at hi
    have hi' : i < f.seriesCount := hi
    simp only [TxtV2.truncateFields, getD_take_of_lt hi']
  · intro s h
    rw [TxtV2.readImageMetadata]
    exact h3 _ h
  · intro s h
    rw [TxtV1.readImageMetadata]
    have := h5 (TxtV1.extractReportFields s)
    rw [h] at this
    exact List.length_eq_zero.mp this

/-- C8 witness: the theorem applied to a report record with zero series
count and a stray occurrence. -/
theorem C8_parser_count_invariants_witness :
    TxtV2.buildSeriesInfos ⟨0, [9], [], [], [], [], []⟩ = [] :=
  C8_parser_count_invariants.2.2.1 ⟨0, [9], [], [], [], [], []⟩ rfl

/-! ## C5: the `<?xml` marker extraction -/

lemma headLit_isSome_iff (l s : List Char) : (headLit l s).isSome ↔ l <+: s := by
  induction l generalizing s with
  | nil => simp [headLit]
  | cons c cs ih =>
    cases s with
    | nil => simp [headLit]
    | cons d ds =>
      rw [headLit]
      by_cases hcd : c = d
      · subst hcd
        simp [ih, List.cons_prefix_cons]
      · simp [hcd, List.cons_prefix_cons]

lemma stringsIndex_none_iff (sub : List Char) :
    ∀ s, Bfmetadata.stringsIndex sub s = none ↔ ∀ j, ¬ sub <+: s.drop j := by
  intro s
  induction s with
  | nil =>
    rw [Bfmetadata.stringsIndex]
    by_cases h : (headLit sub []).isSome
    · rw [if_pos h]
      apply iff_of_false (by simp)
      intro hall
      exact hall 0 ((headLit_isSome_iff _ _).mp h)
    · rw [if_neg h]
      apply iff_of_true rfl
      intro j
      rw [List.drop_nil]
      intro hp
      exact h ((headLit_isSome_iff _ _).mpr hp)
  | cons c rest ih =>
    rw [Bfmetadata.stringsIndex]
    by_cases h : (headLit sub (c :: rest)).isSome
    · rw [if_pos h]
      apply iff_of_false (by simp)
      intro hall
      exact hall 0 ((headLit_isSome_iff _ _).mp h)
    · rw [if_neg h]
      constructor
      · intro hx j
        have hrest : Bfmetadata.stringsIndex sub rest = none := by
          cases hv : Bfmetadata.stringsIndex sub rest with
          | none => rfl
          | some v => rw [hv] at hx; simp at hx
        cases j with
        | zero =>
          intro hp
          exact h ((headLit_isSome_iff _ _).mpr hp)
        | succ j' =>
          rw [List.drop_succ_cons]
          exact (ih.mp hrest) j'
      · intro hall
        have hrest : Bfmetadata.stringsIndex sub rest = none := by
          apply ih.mpr
          intro j
          have hj := hall (j + 1)
          rwa [List.drop_succ_cons] at hj
        rw [hrest]
        rfl

lemma stringsIndex_some (sub : List Char) :
    ∀ s i, Bfmetadata.stringsIndex sub s = some i →
      sub <+: s.drop i ∧ ∀ j < i, ¬ sub <+: s.drop j := by
  intro s
  induction s with
  | nil =>
    intro i hx
    rw [Bfmetadata.stringsIndex] at hx
    by_cases h : (headLit sub []).isSome
    · rw [if_pos h] at hx
      injection hx with hi
      subst hi
      exact ⟨(headLit_isSome_iff _ _).mp h, by omega⟩
    · rw [if_neg h] at hx
      cases hx
  | cons c rest ih =>
    intro i hx
    rw [Bfmetadata.stringsIndex] at hx
    by_cases h : (headLit sub (c :: rest)).isSome
    · rw [if_pos h] at hx
      injection hx with hi
      subst hi
      exact ⟨(headLit_isSome_iff _ _).mp h, by omega⟩
    · rw [if_neg h] at hx
      cases hv : Bfmetadata.stringsIndex sub rest with
      | none => rw [hv] at hx; simp at hx
      | some v =>
        rw [hv] at hx
        simp only [Option.map_some'] at hx
        injection hx with hi
        subst hi
        obtain ⟨h1, h2⟩ := ih v hv
        refine ⟨by rwa [List.drop_succ_cons], ?_⟩
        intro j hj
        cases j with
        | zero =>
          intro hp
          exact h ((headLit_isSome_iff _ _).mpr hp)
        | succ j' =>
          rw [List.drop_succ_cons]
          exact h2 j' (by omega)

/-- C5: `cleanedXmlOutput` (the output-cleaning step of
`GetOmexmlMetadata`) returns the suffix of the output starting at the
first occurrence of `<?xml`, and fails with the no-XML-content error
exactly when the output contains no such marker. -/
theorem C5_xml_marker_extraction :
    ∀ s : List Char,
      (∀ t, Bfmetadata.cleanedXmlOutput s = .ok t →
        ∃ i, t = s.drop i ∧ Bfmetadata.xmlMarker <+: s.drop i ∧
          ∀ j < i, ¬ Bfmetadata.xmlMarker <+: s.drop j) ∧
      ((∃ e, Bfmetadata.cleanedXmlOutput s = .error e) ↔
        ∀ j, ¬ Bfmetadata.xmlMarker <+: s.drop j) := by
  intro s
  constructor
  · intro t ht
    rw [Bfmetadata.cleanedXmlOutput] at ht
    cases hv : Bfmetadata.stringsIndex Bfmetadata.xmlMarker s with
    | none => rw [hv] at ht; cases ht
    | some i =>
      rw [hv] at ht
      injection ht with ht'
      obtain ⟨h1, h2⟩ := stringsIndex_some Bfmetadata.xmlMarker s i hv
      exact ⟨i, ht'.symm, h1, h2⟩
  · constructor
    · rintro ⟨e, he⟩
      rw [Bfmetadata.cleanedXmlOutput] at he
      cases hv : Bfmetadata.stringsIndex Bfmetadata.xmlMarker s with
      | none => exact (stringsIndex_none_iff Bfmetadata.xmlMarker s).mp hv
      | some i => rw [hv] at he; cases he
    · intro hall
      rw [Bfmetadata.cleanedXmlOutput, (stringsIndex_none_iff Bfmetadata.xmlMarker s).mpr hall]
      exact ⟨_, rfl⟩

/-- C5 witness: on a report with a leading log line the theorem yields
the suffix from the marker on. -/
theorem C5_xml_marker_extraction_witness :
    ∃ i, c5Xml = c5Sample.drop i ∧ Bfmetadata.xmlMarker <+: c5Sample.drop i ∧
      ∀ j < i, ¬ Bfmetadata.xmlMarker <+: c5Sample.drop j :=
  (C5_xml_marker_extraction c5Sample).1 c5Xml rfl

/-! ## C9: decode failures inside `GetMetadata` are non-fatal -/

lemma walkFold_id {α : Type} (step : α → Bfmetadata.Node → α × Bool)
    (h : ∀ st n, step st n = (st, true)) :
    ∀ (k : Nat) (ns : List Bfmetadata.Node) (st : α), sizeOf ns ≤ k →
      Bfmetadata.walkFold step st ns = st := by
  intro k
  induction k with
  | zero =>
    intro ns st hk
    cases ns with
    | nil => rw [Bfmetadata.walkFold]
    | cons n rest => simp at hk
  | succ k ihk =>
    intro ns st hk
    cases ns with
    | nil => rw [Bfmetadata.walkFold]
    | cons n rest =>
      obtain ⟨nm, ct, children⟩ := n
      have hsz : sizeOf children ≤ k ∧ sizeOf rest ≤ k := by
        simp only [List.cons.sizeOf_spec, Bfmetadata.Node.mk.sizeOf_spec] at hk
        omega
      rw [Bfmetadata.walkFold]
      simp only [h]
      rw [ihk children st hsz.1]
      exact ihk rest st hsz.2

/-- C9: when the tool output and the generic-tree parse succeed,
`GetMetadata` returns success whatever the typed decoders do; when every
`Instrument`/`Image` decode fails, the zero-valued records are returned.
The concrete conjunct shows the walk continuing past a failing
`Instrument` node to a succeeding `Image` node. -/
theorem C9_decode_errors_nonfatal :
    (∀ (env : Bfmetadata.XmlEnv) (s t : List Char) (root : Bfmetadata.Node),
      env.rawToolOutput = .ok s →
      Bfmetadata.cleanedXmlOutput s = .ok t →
      env.parseRoot t = .ok root →
      (∃ p, Bfmetadata.GetMetadata env = .ok p) ∧
      ((∀ c, ∃ e, env.decodeInstrument c = .error e) →
       (∀ c, ∃ e, env.decodeImage c = .error e) →
       Bfmetadata.GetMetadata env =
         .ok (Bfmetadata.zeroInstrument, Bfmetadata.zeroImage))) ∧
    Bfmetadata.GetMetadata c9env = .ok (Bfmetadata.zeroInstrument, c9img) := by
  constructor
  · intro env s t root h1 h2 h3
    have hget : Bfmetadata.GetOmexmlMetadata env = .ok t := by
      simp only [Bfmetadata.GetOmexmlMetadata, h1]
      exact h2
    have hall : Bfmetadata.GetMetadata env =
        .ok (Bfmetadata.walkFold (Bfmetadata.stepGM env)
          (Bfmetadata.zeroInstrument, Bfmetadata.zeroImage) root.nodes) := by
      simp only [Bfmetadata.GetMetadata, hget, Bfmetadata.ParseAndProcessMetadata, h3]
    refine ⟨⟨_, hall⟩, ?_⟩
    intro hdi hdimg
    rw [hall]
    have hstep : ∀ st n, Bfmetadata.stepGM env st n = (st, true) := by
      intro st n
      rw [Bfmetadata.stepGM]
      split
      · obtain ⟨e, he⟩ := hdi n.content
        rw [he]
      · obtain ⟨e, he⟩ := hdimg n.content
        rw [he]
      · rfl
    rw [walkFold_id _ hstep (sizeOf root.nodes) root.nodes _ le_rfl]
  · have hget : Bfmetadata.GetOmexmlMetadata c9env =
        .ok (("<?xml version=\"1.0\"?><OME></OME>").data) := rfl
    simp only [Bfmetadata.GetMetadata, hget, Bfmetadata.ParseAndProcessMetadata]
    simp [c9env, c9root, Bfmetadata.walkFold, Bfmetadata.stepGM]

/-- C9 witness: the theorem applied to the concrete environment. -/
theorem C9_decode_errors_nonfatal_witness :
    ∃ p, Bfmetadata.GetMetadata c9env = .ok p :=
  (C9_decode_errors_nonfatal.1 c9env ("<?xml version=\"1.0\"?><OME></OME>").data
    ("<?xml version=\"1.0\"?><OME></OME>").data c9root rfl rfl rfl).1

/-! ## C2, C3, C4: the batch application -/

/-- C2: the claim says a failure local to one image never aborts the
batch.  With two matching files where `bfReadImageMetadata` fails on the
first, `processImage` hits `log.Fatalf` (despite the adjacent comments
"Skipping file" and "Continue processing other files") and the process
exits before the second file is touched.  Save errors, by contrast, are
logged with `log.Printf` and the batch completes. -/
theorem C2_local_read_failure_aborts_batch :
    App.processDirectory c2env "d".data ".dv".data c2si ["a.dv".data, "b.dv".data] =
      .aborted [] ("d/a.dv").data ∧
    App.processDirectory c2envSaveFail "d".data ".dv".data c2si ["a.dv".data, "b.dv".data] =
      .completed [("d/a.dv").data, ("d/b.dv").data] ∧
    App.processImage c2envSaveFail ("d/a.dv").data c2si =
      .saveErrorLogged "Error saving metadata as YAML: disk full" := by
  refine ⟨by decide, by decide, by decide⟩

/-- C3 counterexample: for an acquisition with 2 channels and an
annotation set with 3 channels, `saveMetadataAsYAML` still assembles an
output document — there is no `ChannelCountMismatchError` in the code. -/
theorem C3_no_channel_mismatch_check :
    c3img.Pixels.Channels.length = 2 ∧
    c3si.Channels.length = 3 ∧
    (App.assembleFinalYAML c3md c3si).isSome = true := by decide

/-- C3 (amended): the document assembler performs no channel-count
comparison at all: for every metadata with at least one image and every
annotation set — including ones whose channel counts differ — it
produces a document whose acquisition channel list has one entry per
channel of the first image and whose sample info is the given set,
unchanged. -/
theorem C3_assembler_ignores_channel_counts :
    ∀ (md : App.Metadata) (si : App.SampleInfo) (img : App.Image) (rest : List App.Image),
      md.Images = img :: rest →
      ∃ doc, App.assembleFinalYAML md si = some doc ∧
        doc.SampleInfo = si ∧
        doc.AcquisitionMetadata.Channels.length = img.Pixels.Channels.length := by
  intro md si img rest h
  rw [App.assembleFinalYAML, h]
  refine ⟨_, rfl, rfl, ?_⟩
  simp [List.enum_length]

/-- C3 witness: the amended theorem at the mismatched concrete pair. -/
theorem C3_assembler_ignores_channel_counts_witness :
    ∃ doc, App.assembleFinalYAML c3md c3si = some doc ∧
      doc.SampleInfo = c3si ∧
      doc.AcquisitionMetadata.Channels.length = c3img.Pixels.Channels.length :=
  C3_assembler_ignores_channel_counts c3md c3si c3img [] rfl

/-- C4 counterexample: in the default set for 3 channels, Channel 3's
fluorophore is `"NA"`, not the fill-in placeholder, so not every field
of every channel holds placeholder text. -/
theorem C4_third_channel_not_placeholder :
    ¬ (∀ p ∈ (App.createSampleInfo 3).Channels,
        p.2.Fluorophore = "Please_fill_in_a_fluorophore") := by decide

/-- C4 (amended): the default set for N channels has exactly the keys
`Channel 1` .. `Channel N` in order; the sample name and ELN id are
placeholders, the fluorophore is the fill-in placeholder for channels 1
and 2 but `"NA"` from channel 3 on; and with no pre-existing file,
answering "no" at the confirmation gate deletes the file and returns a
fresh default set (identical keys, being the same `createSampleInfo`
call). -/
theorem C4_default_sample_info :
    (∀ N : Nat, (App.createSampleInfo N).Channels.map Prod.fst =
      (List.range N).map (fun j => "Channel " ++ toString (j + 1))) ∧
    (∀ N : Nat, (App.createSampleInfo N).ELNID = "Please_fill_in_ELN_ID" ∧
      (App.createSampleInfo N).SampleName = "Please_fill_in_a_sample_name") ∧
    (∀ N j : Nat, j < N → (App.createSampleInfo N).Channels[j]? =
      some ("Channel " ++ toString (j + 1),
        if j + 1 ≤ 2 then App.ChannelSample.mk "Please_fill_in_a_fluorophore"
        else App.ChannelSample.mk "NA")) ∧
    ((App.createSampleInfo 3).Channels.map Prod.fst =
      ["Channel 1", "Channel 2", "Channel 3"]) ∧
    (∀ (env : App.AnnotEnv) (N : Nat),
      env.fileExistsAtStart = false → env.userConfirms = false →
      env.createFile = .ok () → env.removeFile = .ok () →
      App.initializeSampleInfo env N = .ok (App.createSampleInfo N, false)) := by
  refine ⟨?_, fun N => ⟨rfl, rfl⟩, ?_, by decide, ?_⟩
  · intro N
    rw [App.createSampleInfo, List.map_map]
    rfl
  · intro N j hj
    rw [App.createSampleInfo]
    simp only [List.getElem?_map, List.getElem?_range hj, Option.map_some']
  · intro env N h1 h2 h3 h4
    simp only [App.initializeSampleInfo, h1, h2, h3, h4]
    rfl

/-- C4 witness: the amended theorem at the concrete no-file,
answer-"no" environment with three channels. -/
theorem C4_default_sample_info_witness :
    App.initializeSampleInfo c4env 3 = .ok (App.createSampleInfo 3, false) :=
  C4_default_sample_info.2.2.2.2 c4env 3 rfl rfl rfl rfl

/-! ## C10: companion metadata path derivation for `.ims` files -/

lemma headLit_append (l r : List Char) : headLit l (l ++ r) = some r := by
  induction l with
  | nil => rfl
  | cons c cs ih => simp [headLit, ih]

lemma takeWhile_append_of_ne (p : Char → Bool) (u v : List Char)
    (hu : ∀ c ∈ u, p c = true) (hv : ∀ w, v.head? = some w → p w = false) :
    (u ++ v).takeWhile p = u := by
  induction u with
  | nil =>
    cases v with
    | nil => rfl
    | cons w v' =>
      simp only [List.nil_append, List.takeWhile_cons, hv w rfl]
      rfl
  | cons c cs ih =>
    simp only [List.cons_append, List.takeWhile_cons, hu c (List.mem_cons_self c cs)]
    rw [ih (fun x hx => hu x (List.mem_cons_of_mem c hx))]
    simp

lemma trimSuffixL_append (x y : List Char) : trimSuffixL (x ++ y) y = x := by
  rw [trimSuffixL, if_pos]
  · rw [List.length_append, Nat.add_sub_cancel, List.take_left]
  · rw [List.isSuffixOf]
    exact List.isPrefixOf_iff_prefix.mpr (by simp)

lemma extOf_ims (q : List Char) : extOf (q ++ ".ims".data) = ".ims".data := by
  rw [extOf, List.reverse_append]
  rfl

lemma matchesFNumIms_concat (a ds : List Char) (hne : ds ≠ [])
    (hd : ∀ c ∈ ds, isDigitChar c = true) :
    App.matchesFNumIms (a ++ "_F".data ++ ds ++ ".ims".data) = true := by
  have hrev : (a ++ "_F".data ++ ds ++ ".ims".data).reverse
      = ".ims".data.reverse ++ (ds.reverse ++ ("_F".data.reverse ++ a.reverse)) := by
    simp [List.reverse_append]
  have htw : ((ds.reverse ++ ("_F".data.reverse ++ a.reverse)).takeWhile isDigitChar)
      = ds.reverse := by
    apply takeWhile_append_of_ne
    · intro c hc
      exact hd c (List.mem_reverse.mp hc)
    · intro w hw
      cases hw
      rfl
  have hemp : ds.reverse.isEmpty = false := by
    simp [List.isEmpty_iff, hne]
  rw [App.matchesFNumIms, hrev, headLit_append, Option.map_some', Option.getD_some, htw, hemp]
  rw [List.drop_left, headLit_append]
  rfl

lemma stripFNum_concat (a ds : List Char) (hne : ds ≠ [])
    (hd : ∀ c ∈ ds, isDigitChar c = true) :
    App.stripFNum (a ++ "_F".data ++ ds) = a := by
  have hrev : (a ++ "_F".data ++ ds).reverse
      = ds.reverse ++ ("_F".data.reverse ++ a.reverse) := by
    simp [List.reverse_append]
  have htw : ((ds.reverse ++ ("_F".data.reverse ++ a.reverse)).takeWhile isDigitChar)
      = ds.reverse := by
    apply takeWhile_append_of_ne
    · intro c hc
      exact hd c (List.mem_reverse.mp hc)
    · intro w hw
      cases hw
      rfl
  have hemp : ds.reverse.isEmpty = false := by
    simp [List.isEmpty_iff, hne]
  rw [App.stripFNum, hrev, htw, hemp, List.drop_left, if_pos]
  · show (("_F".data.reverse ++ a.reverse).drop 2).reverse = a
    rw [show ("_F".data.reverse ++ a.reverse).drop 2 = a.reverse from rfl, List.reverse_reverse]
  · rw [headLit_append]
    rfl

/-- C10: for an `.ims` path ending in `_F<digits>.ims` the companion
path strips both the extension and the trailing `_F<digits>` group
before appending `_metadata.txt`; for any other `.ims` path only the
extension is replaced; and when the companion file does not exist the
image is skipped (early `return nil`) without touching the tool. -/
theorem C10_ims_metadata_path :
    (∀ a ds : List Char, ds ≠ [] → (∀ c ∈ ds, isDigitChar c = true) →
      App.deriveMetadataPath (a ++ "_F".data ++ ds ++ ".ims".data)
        = a ++ "_metadata.txt".data) ∧
    (∀ q : List Char, App.matchesFNumIms (q ++ ".ims".data) = false →
      App.deriveMetadataPath (q ++ ".ims".data) = q ++ "_metadata.txt".data) ∧
    (∀ (env : App.ProcEnv) (p : List Char) (si : App.SampleInfo),
      extOf p = ".ims".data →
      env.metadataTxtExists (App.deriveMetadataPath p) = false →
      App.processImage env p si = .skippedNoMetadataTxt) := by
  refine ⟨?_, ?_, ?_⟩
  · intro a ds hne hd
    have hassoc : a ++ "_F".data ++ ds ++ ".ims".data
        = (a ++ "_F".data ++ ds) ++ ".ims".data := by
      simp [List.append_assoc]
    rw [App.deriveMetadataPath, if_pos (matchesFNumIms_concat a ds hne hd)]
    rw [hassoc, extOf_ims, trimSuffixL_append, stripFNum_concat a ds hne hd]
  · intro q hq
    rw [App.deriveMetadataPath, if_neg (by simp [hq]), trimSuffixL_append]
  · intro env p si hext hnx
    rw [App.processImage, if_pos hext, hnx]
    simp

/-- C10 witness: the theorem applied to concrete `_F`-numbered and
missing-companion cases. -/
theorem C10_ims_metadata_path_witness :
    App.deriveMetadataPath ("dir/img".data ++ "_F".data ++ ['1', '2'] ++ ".ims".data)
      = "dir/img".data ++ "_metadata.txt".data ∧
    App.processImage ⟨fun _ => false, fun _ => .ok c2md, fun _ => .ok ()⟩
      "dir/x.ims".data c2si = .skippedNoMetadataTxt :=
  ⟨C10_ims_metadata_path.1 "dir/img".data ['1', '2'] (by decide) (by decide),
   C10_ims_metadata_path.2.2 ⟨fun _ => false, fun _ => .ok c2md, fun _ => .ok ()⟩
     "dir/x.ims".data c2si (by decide) rfl⟩
